import Mathlib

set_option maxRecDepth 4000

set_option exponentiation.threshold 1100

/-!
Verification of the papertree ingestion/sanitization pipeline
(`src/services/geminiService.ts`, function `parseAndSanitize`) and of the
graph-view focus/color/label/path logic (`src/components/GraphView.tsx`).

The JavaScript runtime values produced by `JSON.parse` are modelled by the
inductive type `JsValue`.  Modelling restrictions, stated once here:
* numeric literals are modelled as arbitrary-precision integers (`Int`);
  fractional or exponent literals are outside the model,
* the main pipeline stores numbers as the exact mathematical integers that
  JavaScript doubles approximate; the IEEE-754 binary64 rounding that
  `parseInt` actually applies (rounded integers at and above `2^53`,
  `Infinity` from roughly 309 digits on, which `isNaN` lets through) is
  modelled exactly by `roundDouble`, `jsParseIntD` and `yearCalcD`, and the
  year theorems relate the two,
* JavaScript arrays that are used as records (property assignment on an
  array value) are not modelled; the model raises the same error as a
  primitive would,
* `new Date().getFullYear()` is modelled as an explicit parameter `cy`.
All other behaviour (strict-mode `TypeError` on property assignment to a
primitive, `String(...)` coercion, `parseInt`, truthiness, the repair
regexes, JSON strictness) is translated directly from the source.
-/

/-- Characters that the mechanical layer of this file refers to by code. -/
def lbrace : Char := Char.ofNat 123

def rbrace : Char := Char.ofNat 125

def dquote : Char := Char.ofNat 34

def bslash : Char := Char.ofNat 92

def squote : Char := Char.ofNat 39

/-- Model of the values `JSON.parse` can produce. -/
inductive JsValue where
  | null : JsValue
  | bool (b : Bool) : JsValue
  | num (n : Int) : JsValue
  | str (s : String) : JsValue
  | arr (elems : List JsValue) : JsValue
  | obj (fields : List (String × JsValue)) : JsValue

/-- First field with the given key, i.e. a JavaScript property read on a
plain object (objects produced by `JSON.parse` have unique keys). -/
def getFieldList (fs : List (String × JsValue)) (k : String) : Option JsValue :=
  match fs with
  | [] => none
  | (k1, v) :: rest => if k1 = k then some v else getFieldList rest k

/-- JavaScript property assignment on a plain object: an existing key keeps
its position and gets the new value, a new key is appended (insertion
order). -/
def setFieldList (fs : List (String × JsValue)) (k : String) (v : JsValue) :
    List (String × JsValue) :=
  match fs with
  | [] => [(k, v)]
  | (k1, v1) :: rest => if k1 = k then (k, v) :: rest else (k1, v1) :: setFieldList rest k v

/-- Property read; `none` is JavaScript `undefined`.  Reads on primitives
yield `undefined` (reads on `null` throw and are handled by `readPropEx`). -/
def getFieldU (v : JsValue) (k : String) : Option JsValue :=
  match v with
  | .obj fs => getFieldList fs k
  | _ => none

/-- Property assignment (only ever applied to objects in this development;
assignment to a primitive throws in the source's strict mode and is
modelled as an error at the call sites). -/
def setField (v : JsValue) (k : String) (val : JsValue) : JsValue :=
  match v with
  | .obj fs => .obj (setFieldList fs k val)
  | w => w

/-- Property read as the sanitizer performs it on a link record: reading a
property of `null` throws a `TypeError`. -/
def readPropEx (v : JsValue) (k : String) : Except Unit (Option JsValue) :=
  match v with
  | .null => .error ()
  | .obj fs => .ok (getFieldList fs k)
  | _ => .ok none

/-- Little-endian base-10 digits of a natural number (explicit fuel, so the
definition is structural and reduces in the kernel). -/
def natDigitsF : Nat → Nat → List Nat
  | 0, _ => []
  | fuel+1, n => if n = 0 then [] else n % 10 :: natDigitsF fuel (n / 10)

def natDigits (n : Nat) : List Nat := natDigitsF n n

/-- Decimal digit characters of a natural number, `"0"` for zero, as
JavaScript `String(n)` prints it. -/
def natDecChars (n : Nat) : List Char :=
  if n = 0 then ['0'] else (natDigits n).reverse.map Nat.digitChar

/-- JavaScript `String(n)` for an integral number. -/
def jsNumChars (n : Int) : List Char :=
  (if n < 0 then ['-'] else []) ++ natDecChars n.natAbs

mutual

/-- JavaScript `String(v)` coercion: `Array.prototype.toString` joins the
element strings with commas (`null` elements become empty), objects print
as `[object Object]`. -/
def jsToString : JsValue → String
  | .null => "null"
  | .bool true => "true"
  | .bool false => "false"
  | .num n => ⟨jsNumChars n⟩
  | .str s => s
  | .arr xs => String.intercalate "," (jsToStringElems xs)
  | .obj _ => "[object Object]"

def jsToStringElems : List JsValue → List String
  | [] => []
  | .null :: vs => "" :: jsToStringElems vs
  | v :: vs => jsToString v :: jsToStringElems vs

end

/-- `String(x)` where `x` may be `undefined` (`none`). -/
def jsToStringU : Option JsValue → String
  | none => "undefined"
  | some v => jsToString v

/-- Whitespace stripped by `parseInt` before reading digits. -/
def isJsSpace (c : Char) : Bool :=
  c == ' ' || c == '\t' || c == '\n' || c == '\r' || c == Char.ofNat 11 || c == Char.ofNat 12

def decDigitVal (c : Char) : Option Nat :=
  if c.isDigit then some (c.toNat - 48) else none

def hexDigitVal (c : Char) : Option Nat :=
  if c.isDigit then some (c.toNat - 48)
  else if 'a' ≤ c && c ≤ 'f' then some (c.toNat - 87)
  else if 'A' ≤ c && c ≤ 'F' then some (c.toNat - 55)
  else none

/-- Longest leading run of digits (values) and the remaining characters. -/
def takeDigitRun (f : Char → Option Nat) : List Char → List Nat × List Char
  | [] => ([], [])
  | c :: cs =>
    match f c with
    | some d =>
      match takeDigitRun f cs with
      | (ds, rest) => (d :: ds, rest)
    | none => ([], c :: cs)

/-- Value of a big-endian digit list. -/
def digitsVal (base : Nat) (ds : List Nat) : Nat :=
  ds.foldl (fun a d => base * a + d) 0

/-- The digit-run part of `parseInt`, after whitespace and sign: a
`0x`/`0X` prefix selects base 16, then the longest digit run is read; no
digits means `NaN` (`none`).  Trailing characters are ignored. -/
def parseIntBody (cs : List Char) : Option Nat :=
  let based : Nat × List Char :=
    match cs with
    | c :: c2 :: rest =>
      if c = '0' ∧ (c2 = 'x' ∨ c2 = 'X') then (16, rest) else (10, c :: c2 :: rest)
    | other => (10, other)
  match takeDigitRun (if based.1 = 16 then hexDigitVal else decDigitVal) based.2 with
  | ([], _) => none
  | (d :: ds, _) => some (digitsVal based.1 (d :: ds))

/-- JavaScript `parseInt(s)` with the radix argument omitted: strip leading
whitespace, an optional sign, then the digit run of `parseIntBody`. -/
def jsParseIntChars (cs : List Char) : Option Int :=
  match cs.dropWhile isJsSpace with
  | [] => none
  | c :: rest =>
    if c = '-' then (parseIntBody rest).map (fun n => -(n : Int))
    else if c = '+' then (parseIntBody rest).map (fun n => (n : Int))
    else (parseIntBody (c :: rest)).map (fun n => (n : Int))

def jsParseInt (s : String) : Option Int := jsParseIntChars s.data

/-- JSON whitespace (`JSON.parse`): space, tab, newline, carriage return. -/
def isJsonWs (c : Char) : Bool :=
  c == ' ' || c == '\t' || c == '\n' || c == '\r'

def skipWs (cs : List Char) : List Char := cs.dropWhile isJsonWs

/-- Body of a JSON string literal, after the opening quote: returns the
decoded characters and the input after the closing quote.  Strict per
`JSON.parse`: raw control characters are rejected, only the eight JSON
escapes and `\uXXXX` are accepted. -/
def parseJsonStringBody : List Char → Option (List Char × List Char)
  | [] => none
  | c :: cs =>
    if c = dquote then some ([], cs)
    else if c = bslash then
      match cs with
      | [] => none
      | e :: cs2 =>
        if e = 'u' then
          match cs2 with
          | h1 :: h2 :: h3 :: h4 :: cs3 =>
            match hexDigitVal h1, hexDigitVal h2, hexDigitVal h3, hexDigitVal h4 with
            | some d1, some d2, some d3, some d4 =>
              match parseJsonStringBody cs3 with
              | some (b, rest) =>
                some (Char.ofNat (((d1 * 16 + d2) * 16 + d3) * 16 + d4) :: b, rest)
              | none => none
            | _, _, _, _ => none
          | _ => none
        else
          match
            (if e = dquote then some dquote
             else if e = bslash then some bslash
             else if e = '/' then some '/'
             else if e = 'b' then some (Char.ofNat 8)
             else if e = 'f' then some (Char.ofNat 12)
             else if e = 'n' then some '\n'
             else if e = 'r' then some '\r'
             else if e = 't' then some '\t'
             else none) with
          | some d =>
            match parseJsonStringBody cs2 with
            | some (b, rest) => some (d :: b, rest)
            | none => none
          | none => none
    else if c.toNat < 32 then none
    else
      match parseJsonStringBody cs with
      | some (b, rest) => some (c :: b, rest)
      | none => none

/-- JSON number literal restricted to integers: optional minus, no leading
zeros; a following `.`, `e` or `E` (a fractional or exponent literal) is
outside the model. -/
def parseJsonNumber (cs : List Char) : Option (JsValue × List Char) :=
  let signed : Bool × List Char :=
    match cs with
    | '-' :: rest => (true, rest)
    | _ => (false, cs)
  match takeDigitRun decDigitVal signed.2 with
  | ([], _) => none
  | (d :: ds, rest) =>
    if d = 0 ∧ ds ≠ [] then none
    else
      match rest with
      | [] => some (.num (if signed.1 then -(digitsVal 10 (d :: ds) : Int) else (digitsVal 10 (d :: ds) : Int)), [])
      | c :: _ =>
        if c = '.' || c = 'e' || c = 'E' then none
        else some (.num (if signed.1 then -(digitsVal 10 (d :: ds) : Int) else (digitsVal 10 (d :: ds) : Int)), rest)

mutual

/-- One JSON value (strict grammar of `JSON.parse`), by fuel. -/
def parseJsonVal : Nat → List Char → Option (JsValue × List Char)
  | 0, _ => none
  | fuel+1, cs =>
    match skipWs cs with
    | [] => none
    | c :: rest =>
      if c = dquote then
        match parseJsonStringBody rest with
        | some (b, r) => some (.str ⟨b⟩, r)
        | none => none
      else if c = lbrace then
        match skipWs rest with
        | c2 :: r2 =>
          if c2 = rbrace then some (.obj [], r2)
          else parseJsonObjItems fuel [] (c2 :: r2)
        | [] => none
      else if c = '[' then
        match skipWs rest with
        | c2 :: r2 =>
          if c2 = ']' then some (.arr [], r2)
          else parseJsonArrItems fuel [] (c2 :: r2)
        | [] => none
      else if c = 'n' then
        match rest with
        | 'u' :: 'l' :: 'l' :: r => some (.null, r)
        | _ => none
      else if c = 't' then
        match rest with
        | 'r' :: 'u' :: 'e' :: r => some (.bool true, r)
        | _ => none
      else if c = 'f' then
        match rest with
        | 'a' :: 'l' :: 's' :: 'e' :: r => some (.bool false, r)
        | _ => none
      else if c = '-' || c.isDigit then parseJsonNumber (c :: rest)
      else none

/-- Comma-separated array items, after at least one item is known to follow. -/
def parseJsonArrItems : Nat → List JsValue → List Char → Option (JsValue × List Char)
  | 0, _, _ => none
  | fuel+1, acc, cs =>
    match parseJsonVal fuel cs with
    | none => none
    | some (v, r) =>
      match skipWs r with
      | [] => none
      | c :: r2 =>
        if c = ',' then parseJsonArrItems fuel (v :: acc) r2
        else if c = ']' then some (.arr (v :: acc).reverse, r2)
        else none

/-- Comma-separated `"key": value` members; duplicate keys behave as in
JavaScript (the later value wins, the first position is kept). -/
def parseJsonObjItems : Nat → List (String × JsValue) → List Char → Option (JsValue × List Char)
  | 0, _, _ => none
  | fuel+1, acc, cs =>
    match skipWs cs with
    | [] => none
    | c :: rest =>
      if c = dquote then
        match parseJsonStringBody rest with
        | none => none
        | some (k, r) =>
          match skipWs r with
          | [] => none
          | c2 :: r2 =>
            if c2 = ':' then
              match parseJsonVal fuel r2 with
              | none => none
              | some (v, r3) =>
                match skipWs r3 with
                | [] => none
                | c3 :: r4 =>
                  if c3 = ',' then parseJsonObjItems fuel (setFieldList acc ⟨k⟩ v) r4
                  else if c3 = rbrace then some (.obj (setFieldList acc ⟨k⟩ v), r4)
                  else none
            else none
      else none

end

/-- Model of `JSON.parse`: one value, then only whitespace may remain. -/
def jsonParseChars (cs : List Char) : Option JsValue :=
  match parseJsonVal (2 * cs.length + 4) cs with
  | some (v, rest) => if skipWs rest = [] then some v else none
  | none => none

def jsonParse (s : String) : Option JsValue := jsonParseChars s.data

/-- JSON escape of one character, as `JSON.stringify` emits it. -/
def escapeJsonChar (c : Char) : List Char :=
  if c = dquote then [bslash, dquote]
  else if c = bslash then [bslash, bslash]
  else if c = Char.ofNat 8 then [bslash, 'b']
  else if c = '\t' then [bslash, 't']
  else if c = '\n' then [bslash, 'n']
  else if c = Char.ofNat 12 then [bslash, 'f']
  else if c = '\r' then [bslash, 'r']
  else if c.toNat < 32 then
    [bslash, 'u', '0', '0', Nat.digitChar (c.toNat / 16), Nat.digitChar (c.toNat % 16)]
  else [c]

def quoteChars (cs : List Char) : List Char :=
  dquote :: (cs.map escapeJsonChar).flatten ++ [dquote]

mutual

/-- Model of `JSON.stringify` (no space argument) on parse-shaped values. -/
def stringifyChars : JsValue → List Char
  | .null => 'n' :: 'u' :: 'l' :: 'l' :: []
  | .bool true => 't' :: 'r' :: 'u' :: 'e' :: []
  | .bool false => 'f' :: 'a' :: 'l' :: 's' :: 'e' :: []
  | .num n => jsNumChars n
  | .str s => quoteChars s.data
  | .arr xs => '[' :: stringifyElems xs ++ [']']
  | .obj fs => lbrace :: stringifyFields fs ++ [rbrace]

def stringifyElems : List JsValue → List Char
  | [] => []
  | [v] => stringifyChars v
  | v :: v2 :: vs => stringifyChars v ++ ',' :: stringifyElems (v2 :: vs)

def stringifyFields : List (String × JsValue) → List Char
  | [] => []
  | [(k, v)] => quoteChars k.data ++ ':' :: stringifyChars v
  | (k, v) :: f2 :: fs => quoteChars k.data ++ ':' :: stringifyChars v ++ ',' :: stringifyFields (f2 :: fs)

end

def stringify (v : JsValue) : String := ⟨stringifyChars v⟩

/-- Whitespace class of the repair regexes (`\s`) and of `String.trim`. -/
def isRegexSpace (c : Char) : Bool :=
  c == ' ' || c == '\t' || c == '\n' || c == '\r' || c == Char.ofNat 11 || c == Char.ofNat 12

def startsWithL : List Char → List Char → Bool
  | [], _ => true
  | _ :: _, [] => false
  | p :: ps, c :: cs => p == c && startsWithL ps cs

/-- `text.replace(/pat/g, "")` for a literal pattern: delete every
non-overlapping occurrence, scanning left to right. -/
def removeAllOccF (pat : List Char) : Nat → List Char → List Char
  | 0, cs => cs
  | _+1, [] => []
  | fuel+1, c :: cs =>
    if startsWithL pat (c :: cs) then removeAllOccF pat fuel ((c :: cs).drop pat.length)
    else c :: removeAllOccF pat fuel cs

def removeAllOcc (pat cs : List Char) : List Char := removeAllOccF pat (cs.length + 1) cs

def firstIdxOf (cs : List Char) (c : Char) : Option Nat := cs.findIdx? (· == c)

def lastIdxOf (cs : List Char) (c : Char) : Option Nat :=
  match cs.reverse.findIdx? (· == c) with
  | some i => some (cs.length - 1 - i)
  | none => none

/-- JavaScript `String.prototype.substring`: clamps both indices to the
string length and swaps them when start exceeds end. -/
def jsSubstring (cs : List Char) (a b : Nat) : List Char :=
  let a1 := min a cs.length
  let b1 := min b cs.length
  if a1 ≤ b1 then (cs.take b1).drop a1 else (cs.take a1).drop b1

/-- Step 2 of the repair pipeline: keep the span from the first `{` to the
last `}` when both exist. -/
def braceSpan (cs : List Char) : List Char :=
  match firstIdxOf cs lbrace, lastIdxOf cs rbrace with
  | some i, some j => jsSubstring cs i (j + 1)
  | _, _ => cs

/-- The match of `\s*[}\]]` at the head of the input, as whitespace run,
bracket, and remainder. -/
def matchWsBracket (cs : List Char) : Option (List Char × Char × List Char) :=
  let ws := cs.takeWhile isRegexSpace
  match cs.drop ws.length with
  | c :: rest => if c = rbrace || c = ']' then some (ws, c, rest) else none
  | _ => none

/-- `text.replace(/,(\s*[}\]])/g, '$1')`: drop a comma standing directly
before (whitespace and) a closing brace or bracket. -/
def fixTrailingCommasF : Nat → List Char → List Char
  | 0, cs => cs
  | _+1, [] => []
  | fuel+1, c :: cs =>
    if c = ',' then
      match matchWsBracket cs with
      | some (ws, b, rest) => ws ++ b :: fixTrailingCommasF fuel rest
      | none => c :: fixTrailingCommasF fuel cs
    else c :: fixTrailingCommasF fuel cs

def fixTrailingCommas (cs : List Char) : List Char := fixTrailingCommasF (cs.length + 1) cs

def isWordChar (c : Char) : Bool :=
  c.isAlpha || c.isDigit || c == '_'

/-- The `\s*([a-zA-Z0-9_]+?)\s*:` tail of the unquoted-key pattern at the
head of the input: leading whitespace, the key, and the input after the
colon. -/
def matchBareKey (cs : List Char) : Option (List Char × List Char × List Char) :=
  let ws := cs.takeWhile isRegexSpace
  let afterWs := cs.drop ws.length
  let key := afterWs.takeWhile isWordChar
  match key with
  | [] => none
  | _ :: _ =>
    let afterKey := afterWs.drop key.length
    let ws2 := afterKey.takeWhile isRegexSpace
    match afterKey.drop ws2.length with
    | c :: rest => if c = ':' then some (ws, key, rest) else none
    | [] => none

/-- `text.replace(/([{,]\s*)([a-zA-Z0-9_]+?)\s*:/g, '$1"$2":')`: quote a
bare object key that follows `{` or `,`. -/
def fixUnquotedKeysF : Nat → List Char → List Char
  | 0, cs => cs
  | _+1, [] => []
  | fuel+1, c :: cs =>
    if c = lbrace || c = ',' then
      match matchBareKey cs with
      | some (ws, key, rest) =>
        c :: ws ++ dquote :: key ++ dquote :: ':' :: fixUnquotedKeysF fuel rest
      | none => c :: fixUnquotedKeysF fuel cs
    else c :: fixUnquotedKeysF fuel cs

def fixUnquotedKeys (cs : List Char) : List Char := fixUnquotedKeysF (cs.length + 1) cs

/-- The `\s*'([a-zA-Z0-9_]+?)'\s*:` tail of the single-quoted-key pattern
at the head of the input. -/
def matchQuotedKey (cs : List Char) : Option (List Char × List Char × List Char) :=
  let ws := cs.takeWhile isRegexSpace
  match cs.drop ws.length with
  | q :: afterQ =>
    if q = squote then
      let key := afterQ.takeWhile isWordChar
      match key with
      | [] => none
      | _ :: _ =>
        match afterQ.drop key.length with
        | q2 :: afterKey =>
          if q2 = squote then
            let ws2 := afterKey.takeWhile isRegexSpace
            match afterKey.drop ws2.length with
            | c :: rest => if c = ':' then some (ws, key, rest) else none
            | [] => none
          else none
        | [] => none
    else none
  | [] => none

/-- `text.replace(/([{,]\s*)'([a-zA-Z0-9_]+?)'\s*:/g, '$1"$2":')`. -/
def fixSingleQuotedKeysF : Nat → List Char → List Char
  | 0, cs => cs
  | _+1, [] => []
  | fuel+1, c :: cs =>
    if c = lbrace || c = ',' then
      match matchQuotedKey cs with
      | some (ws, key, rest) =>
        c :: ws ++ dquote :: key ++ dquote :: ':' :: fixSingleQuotedKeysF fuel rest
      | none => c :: fixSingleQuotedKeysF fuel cs
    else c :: fixSingleQuotedKeysF fuel cs

def fixSingleQuotedKeys (cs : List Char) : List Char := fixSingleQuotedKeysF (cs.length + 1) cs

def trimChars (cs : List Char) : List Char :=
  ((cs.dropWhile isRegexSpace).reverse.dropWhile isRegexSpace).reverse

/-- The textual repair pipeline of `parseAndSanitize`, steps in source
order: trim, strip markdown fences, keep the first-`{`-to-last-`}` span,
drop trailing commas, quote bare keys, convert single-quoted keys. -/
def repairChars (cs : List Char) : List Char :=
  let c1 := trimChars cs
  let c2 := removeAllOcc "```json".data c1
  let c3 := removeAllOcc "```".data c2
  let c4 := braceSpan c3
  let c5 := fixTrailingCommas c4
  let c6 := fixUnquotedKeys c5
  fixSingleQuotedKeys c6

def repairText (s : String) : String := ⟨repairChars s.data⟩

def exMapM (f : α → Except ε β) : List α → Except ε (List β)
  | [] => .ok []
  | x :: xs =>
    match f x with
    | .error e => .error e
    | .ok y =>
      match exMapM f xs with
      | .error e => .error e
      | .ok ys => .ok (y :: ys)

def exFilterM (p : α → Except ε Bool) : List α → Except ε (List α)
  | [] => .ok []
  | x :: xs =>
    match p x with
    | .error e => .error e
    | .ok b =>
      match exFilterM p xs with
      | .error e => .error e
      | .ok ys => .ok (if b then x :: ys else ys)

/-- Post-parse normalization of one node record, from the `forEach` body:
`node.id = String(node.id)`, `node.year = parseInt(String(node.year))`
with the current calendar year `cy` substituted on `NaN`, and
`node.authors` coerced to an array.  A non-object record makes the strict
mode property assignment throw. -/
def normalizeNode (cy : Int) (n : JsValue) : Except Unit JsValue :=
  match n with
  | .obj _ =>
    let n1 := setField n "id" (.str (jsToStringU (getFieldU n "id")))
    let y : Int :=
      match jsParseInt (jsToStringU (getFieldU n1 "year")) with
      | some k => k
      | none => cy
    let n2 := setField n1 "year" (.num y)
    .ok (match getFieldU n2 "authors" with
      | some (.arr _) => n2
      | some (.str s) => setField n2 "authors" (.arr [.str s])
      | _ => setField n2 "authors" (.arr []))
  | _ => .error ()

/-- `nodeIds.has(x)` where the set was built from the node `id` properties
and `x` is a string: SameValueZero equality of a string against each
stored value. -/
def setHasStr (ids : List (Option JsValue)) (s : String) : Bool :=
  ids.any (fun v =>
    match v with
    | some (.str t) => t == s
    | _ => false)

/-- The link filter predicate:
`nodeIds.has(String(link.source)) && nodeIds.has(String(link.target))`;
reading a property of a `null` link throws. -/
def keepLink (ids : List (Option JsValue)) (l : JsValue) : Except Unit Bool :=
  match readPropEx l "source" with
  | .error e => .error e
  | .ok sv =>
    match readPropEx l "target" with
    | .error e => .error e
    | .ok tv => .ok (setHasStr ids (jsToStringU sv) && setHasStr ids (jsToStringU tv))

/-- `data.nodes` after the array guard: the `nodes` property when it is an
array, otherwise the substituted empty array. -/
def rawNodesOf (v : JsValue) : List JsValue :=
  match getFieldU v "nodes" with
  | some (.arr xs) => xs
  | _ => []

def rawLinksOf (v : JsValue) : List JsValue :=
  match getFieldU v "links" with
  | some (.arr xs) => xs
  | _ => []

/-- The post-parse phase of `parseAndSanitize` on the parsed value: array
guards, per-node normalization, and the dangling-link filter, returning
the mutated top-level object.  A non-object top level makes the guard's
assignment throw. -/
def sanitizeData (cy : Int) (v : JsValue) : Except Unit JsValue :=
  match v with
  | .obj _ =>
    match exMapM (normalizeNode cy) (rawNodesOf v) with
    | .error e => .error e
    | .ok ns =>
      let ids := ns.map (fun n => getFieldU n "id")
      match exFilterM (keepLink ids) (rawLinksOf v) with
      | .error e => .error e
      | .ok ls => .ok (setField (setField v "nodes" (.arr ns)) "links" (.arr ls))
  | _ => .error ()

/-- The single user-facing error of the sanitizer's `catch` block. -/
def parseFailMsg : String :=
  "Failed to parse analysis results. The model returned invalid JSON."

/-- `parseAndSanitize` of `src/services/geminiService.ts`: textual repair,
`JSON.parse`, then normalization; every exception inside the `try` block is
caught and replaced by the single descriptive error. -/
def parseAndSanitize (cy : Int) (text : String) : Except String JsValue :=
  match jsonParse (repairText text) with
  | none => .error parseFailMsg
  | some v =>
    match sanitizeData cy v with
    | .error _ => .error parseFailMsg
    | .ok g => .ok g

/-! ## Graph view (`src/components/GraphView.tsx` and `src/types.ts`) -/

/-- The relation vocabulary of `src/types.ts`; `label` is the enum's string
value. -/
inductive RelationType where
  | inheritance : RelationType
  | conflict : RelationType
  | inspiration : RelationType
  | citation : RelationType
deriving DecidableEq

def RelationType.label : RelationType → String
  | .inheritance => "Inheritance"
  | .conflict => "Conflict"
  | .inspiration => "Inspiration"
  | .citation => "Citation"

/-- A paper record with the fields the graph view reads; the simulation
position fields `x`, `y` are absent (`none`) until the layout runs. -/
structure PaperNode where
  id : String
  title : String
  year : Int
  authors : List String
  category : Option String
  x : Option ℚ
  y : Option ℚ
deriving DecidableEq

/-- A link endpoint is a string identity until `d3.forceLink` rebinds it to
the node object (`source: string | PaperNode` in `src/types.ts`). -/
inductive LinkEnd where
  | str (s : String) : LinkEnd
  | node (n : PaperNode) : LinkEnd
deriving DecidableEq

structure PaperLink where
  source : LinkEnd
  target : LinkEnd
  type : RelationType
  description : String
deriving DecidableEq

def lowerStr (s : String) : String := ⟨s.data.map Char.toLower⟩

def containsSubL (hay pat : List Char) : Bool :=
  match hay with
  | [] => pat.isEmpty
  | _ :: rest => startsWithL pat hay || containsSubL rest pat

/-- JavaScript `hay.includes(pat)` (substring containment). -/
def containsSubstr (hay pat : String) : Bool := containsSubL hay.data pat.data

/-- Core-node resolution of the graph view: an empty query is falsy and
resolves nothing; otherwise the first node whose lowercased title contains
the lowercased query wins; otherwise the first node is used exactly when
the raw query contains `".pdf"`. -/
def resolveCoreNodeId (searchQuery : String) (nodes : List PaperNode) : Option String :=
  if searchQuery = "" then none
  else
    match nodes.find? (fun n => containsSubstr (lowerStr n.title) (lowerStr searchQuery)) with
    | some n => some n.id
    | none =>
      if containsSubstr searchQuery ".pdf" then nodes.head?.map PaperNode.id else none

/-- `d3.forceLink(links).id(d => d.id)` endpoint resolution, performed when
the simulation is created: a string endpoint is replaced by the node object
carrying that id (the last one on duplicates, as a `Map` keeps the last
binding); a missing id throws. -/
def rebindEnd (nodes : List PaperNode) : LinkEnd → Option LinkEnd
  | .str s => (nodes.reverse.find? (fun n => n.id = s)).map LinkEnd.node
  | .node n => some (.node n)

def rebindLink (nodes : List PaperNode) (l : PaperLink) : Option PaperLink :=
  match rebindEnd nodes l.source, rebindEnd nodes l.target with
  | some s, some t => some ⟨s, t, l.type, l.description⟩
  | _, _ => none

def rebindLinks (nodes : List PaperNode) : List PaperLink → Option (List PaperLink)
  | [] => some []
  | l :: ls =>
    match rebindLink nodes l with
    | none => none
    | some l2 =>
      match rebindLinks nodes ls with
      | none => none
      | some ls2 => some (l2 :: ls2)

/-- JavaScript `===` between a link endpoint and a string: an endpoint that
has been rebound to a node object is never strictly equal to a string. -/
def endEqStr : LinkEnd → String → Bool
  | .str s, q => s == q
  | .node _, _ => false

/-- `getNodeColor` of the graph view: gold for the core, then a lookup of a
link joining the node to the core decides conflict/inheritance-or-
inspiration colors, defaulting to the muted neutral.  `coreNodeId` is
truthy only when it is a non-empty string. -/
def getNodeColor (coreNodeId : Option String) (links : List PaperLink) (d : PaperNode) :
    String :=
  match coreNodeId with
  | some core =>
    if core = "" then "#e2e8f0"
    else if d.id = core then "#facc15"
    else
      match links.find? (fun l =>
          (endEqStr l.source core && endEqStr l.target d.id) ||
          (endEqStr l.target core && endEqStr l.source d.id)) with
      | some l =>
        if l.type = .conflict then "#94a3b8"
        else if l.type = .inheritance ∨ l.type = .inspiration then "#f472b6"
        else "#e2e8f0"
      | none => "#e2e8f0"
  | none => "#e2e8f0"

/-- `d.category || 'Other'` (an empty category string is falsy). -/
def jsCategoryOr (d : PaperNode) : String :=
  match d.category with
  | some s => if s = "" then "Other" else s
  | none => "Other"

/-- Circle fill: `coreNodeId ? getNodeColor(d) : categoryScale(...)`. -/
def nodeCircleFill (categoryScale : String → String) (coreNodeId : Option String)
    (links : List PaperLink) (d : PaperNode) : String :=
  match coreNodeId with
  | some core =>
    if core = "" then categoryScale (jsCategoryOr d)
    else getNodeColor (some core) links d
  | none => categoryScale (jsCategoryOr d)

/-- Node title label:
`d.title.length > 20 ? d.title.substring(0, 20) + '...' : d.title`. -/
def nodeTitleLabel (title : String) : String :=
  if title.length > 20 then (⟨title.data.take 20⟩ : String) ++ "..." else title

/-- Edge label: `d.description || d.type` (no truncation). -/
def linkLabel (description : String) (t : RelationType) : String :=
  if description = "" then t.label else description

/-- A non-empty rendered edge path: the endpoints and their offsets; the
source draws `M sx,sy A dr,dr 0 0,1 tx,ty` with `dr = 1.5·√(dx²+dy²)`. -/
structure ArcPath where
  sx : ℚ
  sy : ℚ
  tx : ℚ
  ty : ℚ
  dx : ℚ
  dy : ℚ
deriving DecidableEq

/-- The falsiness test `!s.x` on an optional coordinate: `undefined` and an
exact `0` are both falsy. -/
def jsFalsyCoord : Option ℚ → Bool
  | none => true
  | some v => v == 0

/-- The tick handler's path for one link: the empty path (`none`) when any
endpoint coordinate is falsy, the arc otherwise. -/
def linkPathD (s t : PaperNode) : Option ArcPath :=
  if jsFalsyCoord s.x || jsFalsyCoord s.y || jsFalsyCoord t.x || jsFalsyCoord t.y then none
  else
    match s.x, s.y, t.x, t.y with
    | some sx, some sy, some tx, some ty => some ⟨sx, sy, tx, ty, tx - sx, ty - sy⟩
    | _, _, _, _ => none

/-! ## Derived definitions used by the statements -/

/-- Value of a little-endian base-10 digit list (proof-side companion of
`natDigits`). -/
def ofDigitsLE : List Nat → Nat
  | [] => 0
  | d :: ds => d + 10 * ofDigitsLE ds

/-- The year the sanitizer stores for a node record:
`parseInt(String(node.year))`, with the current calendar year `cy`
substituted when that is `NaN`. -/
def yearCalc (cy : Int) (n : JsValue) : Int :=
  match jsParseInt (jsToStringU (getFieldU n "year")) with
  | some k => k
  | none => cy

/-- Property read on a link record that is known not to throw (total
companion of `readPropEx`). -/
def linkProp (l : JsValue) (k : String) : Option JsValue :=
  match l with
  | .obj fs => getFieldList fs k
  | _ => none

/-- Title string of the first node of a sanitized graph, used to compare
two sanitizer outputs. -/
def firstNodeTitle (g : JsValue) : Option String :=
  match rawNodesOf g with
  | n :: _ =>
    match getFieldU n "title" with
    | some (.str s) => some s
    | _ => none
  | [] => none

/-! ## Concrete payloads and values used by witnesses and counterexamples -/

/-- Scenario A of the specification: unquoted keys, numeric id, string
year. -/
def scenarioAInput : String :=
  "\x7b\"nodes\":[\x7bid:1,title:\"X\",year:\"2020\"\x7d],\"links\":[]\x7d"

def scenarioAOutput : JsValue :=
  .obj [("nodes", .arr [.obj [("id", .str "1"), ("title", .str "X"), ("year", .num 2020),
        ("authors", .arr [])]]),
        ("links", .arr [])]

/-- A valid payload whose node title contains `",]"`, written with a
`]` escape so that the repair passes leave the input text intact. -/
def idemInput : String :=
  "\x7b\"nodes\":[\x7b\"id\":\"A\",\"title\":\"x,\\u005D\",\"year\":2020,\"authors\":[]\x7d],\"links\":[]\x7d"

def idemGraph1 : JsValue :=
  .obj [("nodes", .arr [.obj [("id", .str "A"), ("title", .str "x,]"), ("year", .num 2020),
        ("authors", .arr [])]]),
        ("links", .arr [])]

def idemGraph2 : JsValue :=
  .obj [("nodes", .arr [.obj [("id", .str "A"), ("title", .str "x]"), ("year", .num 2020),
        ("authors", .arr [])]]),
        ("links", .arr [])]

/-- A small accepted payload: one node without year, one valid link, one
dangling link. -/
def witInput : String :=
  "\x7b\"nodes\":[\x7b\"id\":\"A\"\x7d],\"links\":[\x7b\"source\":\"A\",\"target\":\"A\"\x7d,\x7b\"source\":\"A\",\"target\":\"B\"\x7d]\x7d"

def witParsed : JsValue :=
  .obj [("nodes", .arr [.obj [("id", .str "A")]]),
        ("links", .arr [.obj [("source", .str "A"), ("target", .str "A")],
                        .obj [("source", .str "A"), ("target", .str "B")]])]

def witGraph : JsValue :=
  .obj [("nodes", .arr [.obj [("id", .str "A"), ("year", .num 2025), ("authors", .arr [])]]),
        ("links", .arr [.obj [("source", .str "A"), ("target", .str "A")]])]

/-- An already-clean payload for the idempotence witness. -/
def cleanInput : String := "\x7b\"nodes\":[],\"links\":[]\x7d"

def cleanGraph : JsValue := .obj [("nodes", .arr []), ("links", .arr [])]

def gvA : PaperNode := ⟨"A", "alpha", 2018, [], none, none, none⟩

def gvB : PaperNode := ⟨"B", "beta", 2021, [], none, none, none⟩

def gvX : PaperNode := ⟨"1", "X", 2020, [], none, none, none⟩

def gvLinkAB : PaperLink := ⟨.str "A", .str "B", .inheritance, "builds on"⟩

/-- `gvLinkAB` after `d3.forceLink` has rebound its endpoints. -/
def gvLinkABRebound : PaperLink := ⟨.node gvA, .node gvB, .inheritance, "builds on"⟩

/-- A 30-character label. -/
def longLabel : String := "aaaaaaaaaaaaaaaaaaaaaaaaaaaaaa"

/-- A node positioned exactly on the vertical axis (`x = 0`). -/
def gvPosA : PaperNode := ⟨"P", "origin", 2020, [], none, some 0, some 5⟩

def gvPosB : PaperNode := ⟨"Q", "offset", 2021, [], none, some 3, some 4⟩

/-! ## IEEE-754 double refinement of `parseInt` (year path) -/

/-- An IEEE-754 binary64 value that `parseInt` can return: finite results
of `parseInt` are always integer-valued (exact below `2^53`, rounded
above), and overflow produces an infinity.  `NaN` is `none` at the call
sites, mirroring the source's `isNaN` test. -/
inductive JsNumber where
  | int (n : Int) : JsNumber
  | inf : JsNumber
  | negInf : JsNumber
deriving DecidableEq

def JsNumber.isFinite : JsNumber → Bool
  | .int _ => true
  | _ => false

def natLog2F : Nat → Nat → Nat
  | 0, _ => 0
  | fuel+1, n => if n ≤ 1 then 0 else natLog2F fuel (n / 2) + 1

/-- Floor base-2 logarithm by halving; the constant fuel covers every
value below the double overflow threshold `2^1024` (the only caller
guards its argument). -/
def natLog2 (n : Nat) : Nat := natLog2F 1100 n

/-- Round-to-nearest, ties-to-even conversion of a non-negative exact
integer to an IEEE-754 binary64 value (the ECMAScript "Number value for"
an exact mathematical integer): overflow to `Infinity` at
`2^1024 - 2^970` and above (the midpoint between the largest finite
double and `2^1024`, which ties upward), exact below `2^53`, otherwise
the 53-bit significand is rounded, ties going to the even significand. -/
def roundDoublePos (n : Nat) : JsNumber :=
  if 2 ^ 1024 - 2 ^ 970 ≤ n then .inf
  else if n < 2 ^ 53 then .int n
  else
    let e := natLog2 n - 52
    let q := n / 2 ^ e
    let r := n % 2 ^ e
    let half := 2 ^ (e - 1)
    let m := if half < r ∨ (r = half ∧ q % 2 = 1) then q + 1 else q
    .int (m * 2 ^ e)

/-- The double value of an exact signed integer. -/
def roundDouble (n : Int) : JsNumber :=
  if n < 0 then
    match roundDoublePos n.natAbs with
    | .int m => .int (-m)
    | _ => .negInf
  else roundDoublePos n.natAbs

/-- JavaScript `parseInt` with its actual IEEE-double result: the
specification computes the exact mathematical integer of the digit run
(`jsParseInt`) and returns its conversion to a Number; `none` is `NaN`. -/
def jsParseIntD (s : String) : Option JsNumber := (jsParseInt s).map roundDouble

/-- The year the program stores for a node record under IEEE double
semantics: `isNaN(y) ? currentYear : y`, so only `NaN` (`none`) triggers
the default — an infinite or rounded parse is stored as-is. -/
def yearCalcD (cy : Int) (n : JsValue) : JsNumber :=
  match jsParseIntD (jsToStringU (getFieldU n "year")) with
  | some v => v
  | none => .int cy

/-- A 401-digit year string; its exact integer parse is `10^400`, far
beyond the double overflow threshold. -/
def bigYearStr : String := ⟨'1' :: List.replicate 400 '0'⟩

/-- A valid payload carrying the 401-digit year. -/
def bigYearInput : String :=
  "\x7b\"nodes\":[\x7b\"id\":\"A\",\"year\":\"" ++ bigYearStr ++ "\"\x7d],\"links\":[]\x7d"

def bigYearNode : JsValue := .obj [("id", .str "A"), ("year", .str bigYearStr)]

def bigYearParsed : JsValue := .obj [("nodes", .arr [bigYearNode]), ("links", .arr [])]

def bigYearGraph : JsValue :=
  .obj [("nodes", .arr [.obj [("id", .str "A"), ("year", .num (10 ^ 400)),
        ("authors", .arr [])]]),
        ("links", .arr [])]

/-! ## Helper lemmas -/

theorem getFieldList_set_self (fs : List (String × JsValue)) (k : String) (v : JsValue) :
    getFieldList (setFieldList fs k v) k = some v := by
  induction fs with
  | nil => simp [getFieldList, setFieldList]
  | cons f rest ih =>
    obtain ⟨k1, v1⟩ := f
    by_cases h : k1 = k
    · simp [getFieldList, setFieldList, h]
    · simp [getFieldList, setFieldList, h, ih]

theorem getFieldList_set_ne (fs : List (String × JsValue)) (k k2 : String) (v : JsValue)
    (h : k2 ≠ k) : getFieldList (setFieldList fs k v) k2 = getFieldList fs k2 := by
  induction fs with
  | nil => simp [getFieldList, setFieldList, Ne.symm h]
  | cons f rest ih =>
    obtain ⟨k1, v1⟩ := f
    by_cases h1 : k1 = k
    · subst h1
      simp [getFieldList, setFieldList, Ne.symm h]
    · simp only [setFieldList, if_neg h1]
      by_cases h2 : k1 = k2
      · simp [getFieldList, h2]
      · simp [getFieldList, h2, ih]

theorem setFieldList_id (fs : List (String × JsValue)) (k : String) (v : JsValue)
    (h : getFieldList fs k = some v) : setFieldList fs k v = fs := by
  induction fs with
  | nil => simp [getFieldList] at h
  | cons f rest ih =>
    obtain ⟨k1, v1⟩ := f
    by_cases h1 : k1 = k
    · subst h1
      simp [getFieldList] at h
      simp [setFieldList, h]
    · simp [getFieldList, h1] at h
      simp [setFieldList, h1, ih h]

theorem getFieldU_setField_self (fs : List (String × JsValue)) (k : String) (v : JsValue) :
    getFieldU (setField (.obj fs) k v) k = some v := by
  simp [getFieldU, setField, getFieldList_set_self]

theorem getFieldU_setField_ne (fs : List (String × JsValue)) (k k2 : String) (v : JsValue)
    (h : k2 ≠ k) : getFieldU (setField (.obj fs) k v) k2 = getFieldU (.obj fs) k2 := by
  simp [getFieldU, setField, getFieldList_set_ne _ _ _ _ h]

theorem setField_id (v : JsValue) (k : String) (val : JsValue)
    (h : getFieldU v k = some val) : setField v k val = v := by
  cases v with
  | obj fs => simp [setField, setFieldList_id _ _ _ (by simpa [getFieldU] using h)]
  | null => simp [getFieldU] at h
  | bool b => simp [getFieldU] at h
  | num n => simp [getFieldU] at h
  | str s => simp [getFieldU] at h
  | arr xs => simp [getFieldU] at h

theorem exMapM_ok_forall₂ {f : α → Except ε β} :
    ∀ {xs : List α} {ys : List β}, exMapM f xs = .ok ys →
      List.Forall₂ (fun a b => f a = .ok b) xs ys := by
  intro xs
  induction xs with
  | nil =>
    intro ys h
    simp [exMapM] at h
    simp [← h]
  | cons x rest ih =>
    intro ys h
    simp only [exMapM] at h
    cases hx : f x with
    | error e => rw [hx] at h; exact absurd h (by simp)
    | ok y =>
      rw [hx] at h
      cases hr : exMapM f rest with
      | error e => rw [hr] at h; exact absurd h (by simp)
      | ok ys2 =>
        rw [hr] at h
        simp at h
        rw [← h]
        exact List.Forall₂.cons hx (ih hr)

theorem exMapM_of_forall₂ {f : α → Except ε β} :
    ∀ {xs : List α} {ys : List β}, List.Forall₂ (fun a b => f a = .ok b) xs ys →
      exMapM f xs = .ok ys := by
  intro xs ys h
  induction h with
  | nil => rfl
  | cons hx _ ih => simp [exMapM, hx, ih]

theorem forall₂_mem_right {r : α → β → Prop} :
    ∀ {xs : List α} {ys : List β}, List.Forall₂ r xs ys → ∀ b ∈ ys, ∃ a ∈ xs, r a b := by
  intro xs ys h
  induction h with
  | nil => simp
  | cons hx _ ih =>
    intro b hb
    rcases List.mem_cons.mp hb with hb | hb
    · exact ⟨_, by simp, hb ▸ hx⟩
    · obtain ⟨a, ha, hr⟩ := ih b hb
      exact ⟨a, by simp [ha], hr⟩

theorem exFilterM_ok_mem {p : α → Except ε Bool} :
    ∀ {xs ys : List α}, exFilterM p xs = .ok ys → ∀ y ∈ ys, y ∈ xs ∧ p y = .ok true := by
  intro xs
  induction xs with
  | nil =>
    intro ys h
    simp [exFilterM] at h
    subst h
    simp
  | cons x rest ih =>
    intro ys h
    simp only [exFilterM] at h
    cases hx : p x with
    | error e => rw [hx] at h; exact absurd h (by simp)
    | ok b =>
      rw [hx] at h
      cases hr : exFilterM p rest with
      | error e => rw [hr] at h; exact absurd h (by simp)
      | ok ys2 =>
        rw [hr] at h
        simp at h
        intro y hy
        rw [← h] at hy
        cases b with
        | true =>
          simp at hy
          rcases hy with hy | hy
          · subst hy
            exact ⟨by simp, hx⟩
          · obtain ⟨hmem, hp⟩ := ih hr y hy
            exact ⟨by simp [hmem], hp⟩
        | false =>
          simp at hy
          obtain ⟨hmem, hp⟩ := ih hr y hy
          exact ⟨by simp [hmem], hp⟩

theorem exFilterM_ok_sublist {p : α → Except ε Bool} :
    ∀ {xs ys : List α}, exFilterM p xs = .ok ys → ys.Sublist xs := by
  intro xs
  induction xs with
  | nil =>
    intro ys h
    simp [exFilterM] at h
    subst h
    simp
  | cons x rest ih =>
    intro ys h
    simp only [exFilterM] at h
    cases hx : p x with
    | error e => rw [hx] at h; exact absurd h (by simp)
    | ok b =>
      rw [hx] at h
      cases hr : exFilterM p rest with
      | error e => rw [hr] at h; exact absurd h (by simp)
      | ok ys2 =>
        rw [hr] at h
        simp at h
        rw [← h]
        cases b with
        | true => simpa using List.Sublist.cons₂ x (ih hr)
        | false => simpa using List.Sublist.cons x (ih hr)

theorem exFilterM_all_true {p : α → Except ε Bool} :
    ∀ {ys : List α}, (∀ y ∈ ys, p y = .ok true) → exFilterM p ys = .ok ys := by
  intro ys
  induction ys with
  | nil => intro _; rfl
  | cons y rest ih =>
    intro h
    have hy : p y = .ok true := h y (by simp)
    have hr : exFilterM p rest = .ok rest := ih (fun z hz => h z (by simp [hz]))
    simp [exFilterM, hy, hr]

theorem natDigitsF_lt_ten : ∀ (f n d : Nat), d ∈ natDigitsF f n → d < 10 := by
  intro f
  induction f with
  | zero => intro n d h; simp [natDigitsF] at h
  | succ f ih =>
    intro n d h
    by_cases hn : n = 0
    · simp [natDigitsF, hn] at h
    · simp only [natDigitsF, if_neg hn] at h
      rcases List.mem_cons.mp h with h | h
      · subst h; exact Nat.mod_lt _ (by omega)
      · exact ih _ _ h

theorem ofDigitsLE_natDigitsF : ∀ (f n : Nat), n ≤ f → ofDigitsLE (natDigitsF f n) = n := by
  intro f
  induction f with
  | zero => intro n h; interval_cases n; simp [natDigitsF, ofDigitsLE]
  | succ f ih =>
    intro n h
    by_cases hn : n = 0
    · simp [natDigitsF, hn, ofDigitsLE]
    · have hdiv : n / 10 ≤ f := by
        have := Nat.div_lt_self (Nat.pos_of_ne_zero hn) (show 1 < 10 by omega)
        omega
      simp only [natDigitsF, if_neg hn, ofDigitsLE, ih _ hdiv]
      omega

theorem ofDigitsLE_natDigits (n : Nat) : ofDigitsLE (natDigits n) = n :=
  ofDigitsLE_natDigitsF n n le_rfl

theorem digitsVal_reverse (ds : List Nat) : digitsVal 10 ds.reverse = ofDigitsLE ds := by
  induction ds with
  | nil => rfl
  | cons d rest ih =>
    simp only [List.reverse_cons, digitsVal, List.foldl_append, List.foldl_cons,
      List.foldl_nil, ofDigitsLE]
    simp only [digitsVal] at ih
    omega

theorem digitChar_facts (d : Nat) (h : d < 10) :
    decDigitVal (Nat.digitChar d) = some d ∧ isJsSpace (Nat.digitChar d) = false ∧
    Nat.digitChar d ≠ '-' ∧ Nat.digitChar d ≠ '+' ∧ Nat.digitChar d ≠ 'x' ∧
    Nat.digitChar d ≠ 'X' := by
  interval_cases d <;> exact ⟨by decide, by decide, by decide, by decide, by decide, by decide⟩

theorem takeDigitRun_digitChars (ds : List Nat) (h : ∀ d ∈ ds, d < 10) :
    takeDigitRun decDigitVal (ds.map Nat.digitChar) = (ds, []) := by
  induction ds with
  | nil => rfl
  | cons d rest ih =>
    have hd := (digitChar_facts d (h d (by simp))).1
    have hr := ih (fun x hx => h x (by simp [hx]))
    simp [takeDigitRun, hd, hr]


theorem natDigits_lt_ten (n d : Nat) (h : d ∈ natDigits n) : d < 10 :=
  natDigitsF_lt_ten n n d h

theorem natDigits_ne_nil (n : Nat) (hn : n ≠ 0) : natDigits n ≠ [] := by
  intro h0
  have := ofDigitsLE_natDigits n
  rw [h0] at this
  exact hn (by simpa [ofDigitsLE] using this.symm)

theorem parseIntBody_natDecChars (n : Nat) : parseIntBody (natDecChars n) = some n := by
  by_cases hn : n = 0
  · subst hn; decide
  · have hlt : ∀ d ∈ (natDigits n).reverse, d < 10 := by
      intro d hd
      exact natDigits_lt_ten n d (List.mem_reverse.mp hd)
    have hval : digitsVal 10 (natDigits n).reverse = n := by
      rw [digitsVal_reverse, ofDigitsLE_natDigits]
    have hne : (natDigits n).reverse ≠ [] := by
      simp [natDigits_ne_nil n hn]
    cases hr : (natDigits n).reverse with
    | nil => exact absurd hr hne
    | cons d0 rest0 =>
      rw [hr] at hlt hval
      have hd0 : d0 < 10 := hlt d0 (by simp)
      have hchars : natDecChars n = Nat.digitChar d0 :: rest0.map Nat.digitChar := by
        simp [natDecChars, hn, hr]
      have hrun : takeDigitRun decDigitVal ((d0 :: rest0).map Nat.digitChar) =
          (d0 :: rest0, []) := takeDigitRun_digitChars _ hlt
      rw [hchars]
      cases rest0 with
      | nil =>
        simp only [List.map_cons, List.map_nil] at hrun
        simp [parseIntBody, hrun, hval]
      | cons d1 rest1 =>
        have hd1 : d1 < 10 := hlt d1 (by simp)
        have hf1 := digitChar_facts d1 hd1
        have hnotx : ¬(Nat.digitChar d0 = '0' ∧
            (Nat.digitChar d1 = 'x' ∨ Nat.digitChar d1 = 'X')) := by
          rintro ⟨-, hx | hx⟩
          · exact hf1.2.2.2.2.1 hx
          · exact hf1.2.2.2.2.2 hx
        simp only [List.map_cons] at hrun
        simp [parseIntBody, hnotx, hrun, hval]

theorem jsParseIntChars_jsNumChars (y : Int) : jsParseIntChars (jsNumChars y) = some y := by
  have headFacts : ∀ n : Nat, ∃ c rest, natDecChars n = c :: rest ∧
      isJsSpace c = false ∧ c ≠ '-' ∧ c ≠ '+' := by
    intro n
    by_cases hn : n = 0
    · exact ⟨'0', [], by simp [natDecChars, hn], by decide, by decide, by decide⟩
    · cases hr : (natDigits n).reverse with
      | nil =>
        exfalso
        exact natDigits_ne_nil n hn (by simpa using congrArg List.reverse hr)
      | cons d ds =>
        have hd10 : d < 10 := by
          apply natDigits_lt_ten n d
          apply List.mem_reverse.mp
          rw [hr]
          simp
        have hf := digitChar_facts d hd10
        exact ⟨Nat.digitChar d, ds.map Nat.digitChar, by simp [natDecChars, hn, hr],
          hf.2.1, hf.2.2.1, hf.2.2.2.1⟩
  rcases Int.lt_or_le y 0 with hy | hy
  · have hneg : jsNumChars y = '-' :: natDecChars y.natAbs := by
      simp [jsNumChars, hy]
    obtain ⟨c, rest, hcr, hsp, hminus, hplus⟩ := headFacts y.natAbs
    have hsm : isJsSpace '-' = false := by decide
    have hdw : List.dropWhile isJsSpace ('-' :: natDecChars y.natAbs) =
        '-' :: natDecChars y.natAbs := by
      simp [List.dropWhile, hsm]
    rw [hneg]
    simp only [jsParseIntChars, hdw, if_pos rfl, parseIntBody_natDecChars, Option.map_some']
    simp [abs_of_neg hy]
  · have hpos : jsNumChars y = natDecChars y.natAbs := by
      simp [jsNumChars, Int.not_lt.mpr hy]
    obtain ⟨c, rest, hcr, hsp, hminus, hplus⟩ := headFacts y.natAbs
    have hdw : List.dropWhile isJsSpace (natDecChars y.natAbs) = c :: rest := by
      rw [hcr]
      simp [List.dropWhile, hsp]
    rw [hpos]
    simp only [jsParseIntChars, hdw, if_neg hminus, if_neg hplus]
    rw [← hcr]
    simp only [parseIntBody_natDecChars, Option.map_some']
    simp [abs_of_nonneg hy]

theorem jsParseInt_num (y : Int) : jsParseInt (jsToString (.num y)) = some y :=
  jsParseIntChars_jsNumChars y

theorem normalizeNode_ok_obj (cy : Int) (n n2 : JsValue) (h : normalizeNode cy n = .ok n2) :
    ∃ fs, n = .obj fs := by
  cases n with
  | obj fs => exact ⟨fs, rfl⟩
  | null => simp [normalizeNode] at h
  | bool b => simp [normalizeNode] at h
  | num m => simp [normalizeNode] at h
  | str s => simp [normalizeNode] at h
  | arr xs => simp [normalizeNode] at h

theorem normalizeNode_ok_spec (cy : Int) (fs : List (String × JsValue)) (n2 : JsValue)
    (h : normalizeNode cy (.obj fs) = .ok n2) :
    getFieldU n2 "id" = some (.str (jsToStringU (getFieldList fs "id"))) ∧
    getFieldU n2 "year" = some (.num (yearCalc cy (.obj fs))) ∧
    (∃ xs, getFieldU n2 "authors" = some (.arr xs)) ∧
    (∀ k, k ≠ "id" → k ≠ "year" → k ≠ "authors" → getFieldU n2 k = getFieldList fs k) := by
  have hyi : ("year" : String) ≠ "id" := by decide
  have hiy : ("id" : String) ≠ "year" := by decide
  simp only [normalizeNode, setField, getFieldU] at h
  have hyeq :
      getFieldList (setFieldList fs "id" (.str (jsToStringU (getFieldList fs "id")))) "year" =
        getFieldList fs "year" := getFieldList_set_ne _ _ _ _ hyi
  rw [hyeq] at h
  split at h
  case _ xs heqa =>
    have h2 := h
    simp only [Except.ok.injEq] at h2
    subst h2
    refine ⟨?_, ?_, ⟨xs, ?_⟩, ?_⟩
    · simp only [getFieldU]
      rw [getFieldList_set_ne _ _ _ _ hiy, getFieldList_set_self]
    · simp only [getFieldU]
      rw [getFieldList_set_self]
      rfl
    · simpa [getFieldU] using heqa
    · intro k hk1 hk2 _
      simp only [getFieldU]
      rw [getFieldList_set_ne _ _ _ _ hk2, getFieldList_set_ne _ _ _ _ hk1]
  case _ s heqa =>
    have h2 := h
    simp only [Except.ok.injEq] at h2
    subst h2
    refine ⟨?_, ?_, ⟨[.str s], ?_⟩, ?_⟩
    · simp only [getFieldU, setField]
      rw [getFieldList_set_ne _ _ _ _ (by decide : ("id" : String) ≠ "authors"),
        getFieldList_set_ne _ _ _ _ hiy, getFieldList_set_self]
    · simp only [getFieldU, setField]
      rw [getFieldList_set_ne _ _ _ _ (by decide : ("year" : String) ≠ "authors"),
        getFieldList_set_self]
      rfl
    · simp only [getFieldU, setField]
      rw [getFieldList_set_self]
    · intro k hk1 hk2 hk3
      simp only [getFieldU, setField]
      rw [getFieldList_set_ne _ _ _ _ hk3, getFieldList_set_ne _ _ _ _ hk2,
        getFieldList_set_ne _ _ _ _ hk1]
  case _ heqa1 heqa2 =>
    have h2 := h
    simp only [Except.ok.injEq] at h2
    subst h2
    refine ⟨?_, ?_, ⟨[], ?_⟩, ?_⟩
    · simp only [getFieldU, setField]
      rw [getFieldList_set_ne _ _ _ _ (by decide : ("id" : String) ≠ "authors"),
        getFieldList_set_ne _ _ _ _ hiy, getFieldList_set_self]
    · simp only [getFieldU, setField]
      rw [getFieldList_set_ne _ _ _ _ (by decide : ("year" : String) ≠ "authors"),
        getFieldList_set_self]
      rfl
    · simp only [getFieldU, setField]
      rw [getFieldList_set_self]
    · intro k hk1 hk2 hk3
      simp only [getFieldU, setField]
      rw [getFieldList_set_ne _ _ _ _ hk3, getFieldList_set_ne _ _ _ _ hk2,
        getFieldList_set_ne _ _ _ _ hk1]

theorem getFieldU_obj_of_some (n2 : JsValue) (k : String) (v : JsValue)
    (h : getFieldU n2 k = some v) : ∃ gs, n2 = .obj gs := by
  cases n2 with
  | obj gs => exact ⟨gs, rfl⟩
  | null => simp [getFieldU] at h
  | bool b => simp [getFieldU] at h
  | num m => simp [getFieldU] at h
  | str s => simp [getFieldU] at h
  | arr xs => simp [getFieldU] at h

theorem jsToStringU_some (v : JsValue) : jsToStringU (some v) = jsToString v := rfl

theorem jsToString_str (s : String) : jsToString (.str s) = s := rfl

theorem normalizeNode_idem (cy : Int) (n n2 : JsValue) (h : normalizeNode cy n = .ok n2) :
    normalizeNode cy n2 = .ok n2 := by
  obtain ⟨fs, rfl⟩ := normalizeNode_ok_obj cy n n2 h
  obtain ⟨hid, hyear, ⟨xs, hauth⟩, _⟩ := normalizeNode_ok_spec cy fs n2 h
  obtain ⟨gs, rfl⟩ := getFieldU_obj_of_some n2 "id" _ hid
  simp only [getFieldU] at hid hyear hauth
  have hset1 : setFieldList gs "id" (.str (jsToStringU (getFieldList fs "id"))) = gs :=
    setFieldList_id _ _ _ hid
  have hsetY : setFieldList gs "year" (.num (yearCalc cy (.obj fs))) = gs :=
    setFieldList_id _ _ _ hyear
  simp only [normalizeNode, setField, getFieldU, hid, jsToStringU_some, jsToString_str,
    hset1, hyear, jsParseInt_num, hsetY, hauth]

theorem sanitizeData_ok_inv (cy : Int) (v g : JsValue) (h : sanitizeData cy v = .ok g) :
    ∃ fs ns ls, v = .obj fs ∧
      exMapM (normalizeNode cy) (rawNodesOf v) = .ok ns ∧
      exFilterM (keepLink (ns.map (fun n => getFieldU n "id"))) (rawLinksOf v) = .ok ls ∧
      g = setField (setField v "nodes" (.arr ns)) "links" (.arr ls) := by
  cases v with
  | obj fs =>
    simp only [sanitizeData] at h
    split at h
    · simp at h
    · rename_i ns hm
      split at h
      · simp at h
      · rename_i ls hf
        simp only [Except.ok.injEq] at h
        exact ⟨fs, ns, ls, rfl, hm, hf, h.symm⟩
  | null => simp [sanitizeData] at h
  | bool b => simp [sanitizeData] at h
  | num m => simp [sanitizeData] at h
  | str s => simp [sanitizeData] at h
  | arr xs => simp [sanitizeData] at h

theorem getFields_of_setChain (fs : List (String × JsValue)) (a b : JsValue) :
    getFieldU (setField (setField (.obj fs) "nodes" a) "links" b) "nodes" = some a ∧
    getFieldU (setField (setField (.obj fs) "nodes" a) "links" b) "links" = some b := by
  constructor
  · show getFieldU (setField (.obj (setFieldList fs "nodes" a)) "links" b) "nodes" = some a
    rw [getFieldU_setField_ne _ _ _ _ (by decide : ("nodes" : String) ≠ "links")]
    exact getFieldU_setField_self _ _ _
  · show getFieldU (setField (.obj (setFieldList fs "nodes" a)) "links" b) "links" = some b
    exact getFieldU_setField_self _ _ _

theorem keepLink_true_inv (ids : List (Option JsValue)) (l : JsValue)
    (h : keepLink ids l = .ok true) :
    setHasStr ids (jsToStringU (linkProp l "source")) = true ∧
    setHasStr ids (jsToStringU (linkProp l "target")) = true := by
  cases l with
  | null => simp [keepLink, readPropEx] at h
  | obj fs =>
    simp only [keepLink, readPropEx, Except.ok.injEq, Bool.and_eq_true] at h
    simpa only [linkProp] using h
  | bool b =>
    simp only [keepLink, readPropEx, Except.ok.injEq, Bool.and_eq_true] at h
    simpa only [linkProp] using h
  | num m =>
    simp only [keepLink, readPropEx, Except.ok.injEq, Bool.and_eq_true] at h
    simpa only [linkProp] using h
  | str s =>
    simp only [keepLink, readPropEx, Except.ok.injEq, Bool.and_eq_true] at h
    simpa only [linkProp] using h
  | arr xs =>
    simp only [keepLink, readPropEx, Except.ok.injEq, Bool.and_eq_true] at h
    simpa only [linkProp] using h

theorem setHasStr_mem (ids : List (Option JsValue)) (s : String)
    (h : setHasStr ids s = true) : some (.str s) ∈ ids := by
  simp only [setHasStr, List.any_eq_true] at h
  obtain ⟨v, hv, hm⟩ := h
  cases v with
  | none => simp at hm
  | some w =>
    cases w with
    | str t =>
      have : t = s := by simpa using hm
      subst this
      exact hv
    | null => simp at hm
    | bool b => simp at hm
    | num m => simp at hm
    | arr xs => simp at hm
    | obj fs => simp at hm

theorem sanitizeData_idem (cy : Int) (v g : JsValue) (h : sanitizeData cy v = .ok g) :
    sanitizeData cy g = .ok g := by
  obtain ⟨fs, ns, ls, rfl, hm, hf, hg⟩ := sanitizeData_ok_inv cy v g h
  obtain ⟨hnodes, hlinks⟩ := getFields_of_setChain fs (.arr ns) (.arr ls)
  rw [← hg] at hnodes hlinks
  obtain ⟨gs, hgeq⟩ := getFieldU_obj_of_some g "nodes" _ hnodes
  have hrawn : rawNodesOf g = ns := by
    simp [rawNodesOf, hnodes]
  have hrawl : rawLinksOf g = ls := by
    simp [rawLinksOf, hlinks]
  have hns : exMapM (normalizeNode cy) ns = .ok ns := by
    apply exMapM_of_forall₂
    rw [List.forall₂_same]
    intro n hn
    obtain ⟨a, _, ha⟩ := forall₂_mem_right (exMapM_ok_forall₂ hm) n hn
    exact normalizeNode_idem cy a n ha
  have hls : exFilterM (keepLink (ns.map fun n => getFieldU n "id")) ls = .ok ls := by
    apply exFilterM_all_true
    intro l hl
    exact (exFilterM_ok_mem hf l hl).2
  have hsetN : setField g "nodes" (.arr ns) = g := setField_id _ _ _ hnodes
  have hsetL : setField g "links" (.arr ls) = g := setField_id _ _ _ hlinks
  rw [hgeq]
  simp only [sanitizeData, ← hgeq, hrawn, hrawl, hns, hls, hsetN, hsetL]

theorem parseAndSanitize_ok_inv (cy : Int) (t : String) (g : JsValue)
    (h : parseAndSanitize cy t = .ok g) :
    ∃ v, jsonParse (repairText t) = some v ∧ sanitizeData cy v = .ok g := by
  simp only [parseAndSanitize] at h
  split at h
  · simp at h
  · rename_i v hv
    split at h
    · simp at h
    · rename_i g2 hg
      simp only [Except.ok.injEq] at h
      exact ⟨v, hv, h ▸ hg⟩

/-! ## Claim theorems -/

/-- C1: for every textual payload the sanitizer accepts, every relation in
the output Graph has both its source and its target identity (each coerced
to string) present in the set of node identities of that Graph; a relation
referencing an absent identity therefore cannot appear in the output. -/
theorem sanitized_links_endpoints_present (cy : Int) (t : String) (g : JsValue)
    (h : parseAndSanitize cy t = .ok g) :
    ∃ ns ls, getFieldU g "nodes" = some (.arr ns) ∧ getFieldU g "links" = some (.arr ls) ∧
      ∀ l ∈ ls,
        (∃ n ∈ ns, getFieldU n "id" = some (.str (jsToStringU (linkProp l "source")))) ∧
        (∃ n ∈ ns, getFieldU n "id" = some (.str (jsToStringU (linkProp l "target")))) := by
  obtain ⟨v, hv, hs⟩ := parseAndSanitize_ok_inv cy t g h
  obtain ⟨fs, ns, ls, rfl, hm, hf, hg⟩ := sanitizeData_ok_inv cy v g hs
  obtain ⟨hnodes, hlinks⟩ := getFields_of_setChain fs (.arr ns) (.arr ls)
  rw [← hg] at hnodes hlinks
  refine ⟨ns, ls, hnodes, hlinks, ?_⟩
  intro l hl
  have hkeep := (exFilterM_ok_mem hf l hl).2
  obtain ⟨hsrc, htgt⟩ := keepLink_true_inv _ l hkeep
  constructor
  · obtain ⟨n, hn, he⟩ := List.mem_map.mp (setHasStr_mem _ _ hsrc)
    exact ⟨n, hn, he⟩
  · obtain ⟨n, hn, he⟩ := List.mem_map.mp (setHasStr_mem _ _ htgt)
    exact ⟨n, hn, he⟩

/-- Witness for C1 on a concrete accepted payload. -/
theorem sanitized_links_endpoints_present_witness :
    parseAndSanitize 2025 witInput = .ok witGraph ∧
    (∃ ns ls, getFieldU witGraph "nodes" = some (.arr ns) ∧
      getFieldU witGraph "links" = some (.arr ls) ∧
      ∀ l ∈ ls,
        (∃ n ∈ ns, getFieldU n "id" = some (.str (jsToStringU (linkProp l "source")))) ∧
        (∃ n ∈ ns, getFieldU n "id" = some (.str (jsToStringU (linkProp l "target"))))) :=
  ⟨rfl, sanitized_links_endpoints_present 2025 witInput witGraph rfl⟩

theorem roundDoublePos_small (n : Nat) (h : n < 2 ^ 53) : roundDoublePos n = .int n := by
  have h1 : ¬ ((2 : Nat) ^ 1024 - 2 ^ 970 ≤ n) := by
    have hthr : (2 : Nat) ^ 53 ≤ 2 ^ 1024 - 2 ^ 970 := by decide
    omega
  rw [roundDoublePos, if_neg h1, if_pos h]

theorem roundDouble_small (n : Int) (h : n.natAbs < 2 ^ 53) : roundDouble n = .int n := by
  have hpos := roundDoublePos_small n.natAbs h
  by_cases hn : n < 0
  · simp only [roundDouble, if_pos hn, hpos]
    simp only [JsNumber.int.injEq]
    omega
  · simp only [roundDouble, if_neg hn, hpos]
    simp only [JsNumber.int.injEq]
    omega

theorem yearCalcD_agrees (cy : Int) (n : JsValue)
    (h : (yearCalc cy n).natAbs < 2 ^ 53) : yearCalcD cy n = .int (yearCalc cy n) := by
  cases hp : jsParseInt (jsToStringU (getFieldU n "year")) with
  | none => simp [yearCalcD, jsParseIntD, yearCalc, hp]
  | some k =>
    have h2 : yearCalc cy n = k := by simp [yearCalc, hp]
    rw [h2] at h ⊢
    simp [yearCalcD, jsParseIntD, hp, roundDouble_small k h]

/-- C2 (amended): every stored year is a number, never null: the sanitizer
stores `parseInt`'s value of the supplied year and substitutes the current
calendar year exactly when that value is `NaN`; whenever the exact integer
parse stays below `2^53` in magnitude — every realistic year — the double
the program stores (`yearCalcD`) is that exact finite integer parse
(`yearCalc`).  Beyond `2^53` the double can be a rounded integer or
`Infinity` (`isNaN(Infinity)` is false, so the default does not fire), as
`sanitized_year_infinity_counterexample` shows. -/
theorem sanitized_year_number (cy : Int) (t : String) (g : JsValue)
    (h : parseAndSanitize cy t = .ok g) :
    ∃ ns, getFieldU g "nodes" = some (.arr ns) ∧
      ∀ n2 ∈ ns, ∃ orig, normalizeNode cy orig = .ok n2 ∧
        getFieldU n2 "year" = some (.num (yearCalc cy orig)) ∧
        ((yearCalc cy orig).natAbs < 2 ^ 53 →
          yearCalcD cy orig = .int (yearCalc cy orig)) := by
  obtain ⟨v, hv, hs⟩ := parseAndSanitize_ok_inv cy t g h
  obtain ⟨fs, ns, ls, rfl, hm, hf, hg⟩ := sanitizeData_ok_inv cy v g hs
  obtain ⟨hnodes, _⟩ := getFields_of_setChain fs (.arr ns) (.arr ls)
  rw [← hg] at hnodes
  refine ⟨ns, hnodes, ?_⟩
  intro n2 hn2
  obtain ⟨orig, _, ha⟩ := forall₂_mem_right (exMapM_ok_forall₂ hm) n2 hn2
  obtain ⟨ofs, rfl⟩ := normalizeNode_ok_obj cy orig n2 ha
  exact ⟨.obj ofs, ha, (normalizeNode_ok_spec cy ofs n2 ha).2.1,
    fun hsmall => yearCalcD_agrees cy (.obj ofs) hsmall⟩

/-- Witness for the amended C2 on a concrete accepted payload (the year is
absent, so the current-year default fires and stays below `2^53`). -/
theorem sanitized_year_number_witness :
    parseAndSanitize 2025 witInput = .ok witGraph ∧
    (∃ ns, getFieldU witGraph "nodes" = some (.arr ns) ∧
      ∀ n2 ∈ ns, ∃ orig, normalizeNode 2025 orig = .ok n2 ∧
        getFieldU n2 "year" = some (.num (yearCalc 2025 orig)) ∧
        ((yearCalc 2025 orig).natAbs < 2 ^ 53 →
          yearCalcD 2025 orig = .int (yearCalc 2025 orig))) :=
  ⟨rfl, sanitized_year_number 2025 witInput witGraph rfl⟩

/-- Counterexample to C2 as stated: the sanitizer accepts a payload whose
year string has 401 digits, but under the real IEEE double semantics
`parseInt` returns `Infinity` for it, and `isNaN(Infinity)` is false, so
the current-year default does not fire: the stored year is neither a
finite integer nor the integer parse `10^400`. -/
theorem sanitized_year_infinity_counterexample :
    jsonParse (repairText bigYearInput) = some bigYearParsed ∧
    parseAndSanitize 2025 bigYearInput = .ok bigYearGraph ∧
    jsParseIntChars bigYearStr.data = some ((10 : Int) ^ 400) ∧
    jsParseIntD bigYearStr = some JsNumber.inf ∧
    yearCalcD 2025 bigYearNode = JsNumber.inf ∧
    JsNumber.isFinite JsNumber.inf = false ∧
    JsNumber.inf ≠ JsNumber.int ((10 : Int) ^ 400) :=
  ⟨rfl, rfl, rfl, rfl, rfl, rfl, by decide⟩

/-- C9: the sanitizer never drops, reorders, or deduplicates nodes: the
output node list corresponds one-to-one and in order (`List.Forall₂`) to
the parsed node list via `normalizeNode`, which modifies only the `id`,
`year` and `authors` fields and passes every other field through
unchanged; removal happens only in the link list (a sublist of the parsed
links). -/
theorem sanitize_preserves_node_list (cy : Int) (t : String) (v g : JsValue)
    (hv : jsonParse (repairText t) = some v)
    (h : parseAndSanitize cy t = .ok g) :
    ∃ ns ls, getFieldU g "nodes" = some (.arr ns) ∧ getFieldU g "links" = some (.arr ls) ∧
      List.Forall₂ (fun orig n2 => normalizeNode cy orig = .ok n2) (rawNodesOf v) ns ∧
      (∀ orig n2, normalizeNode cy orig = .ok n2 →
        ∀ k, k ≠ "id" → k ≠ "year" → k ≠ "authors" → getFieldU n2 k = getFieldU orig k) ∧
      ls.Sublist (rawLinksOf v) := by
  obtain ⟨v2, hv2, hs⟩ := parseAndSanitize_ok_inv cy t g h
  rw [hv] at hv2
  have hveq : v = v2 := Option.some.inj hv2
  subst hveq
  obtain ⟨fs, ns, ls, rfl, hm, hf, hg⟩ := sanitizeData_ok_inv cy v g hs
  obtain ⟨hnodes, hlinks⟩ := getFields_of_setChain fs (.arr ns) (.arr ls)
  rw [← hg] at hnodes hlinks
  refine ⟨ns, ls, hnodes, hlinks, exMapM_ok_forall₂ hm, ?_, exFilterM_ok_sublist hf⟩
  intro orig n2 hno k hk1 hk2 hk3
  obtain ⟨ofs, rfl⟩ := normalizeNode_ok_obj cy orig n2 hno
  exact (normalizeNode_ok_spec cy ofs n2 hno).2.2.2 k hk1 hk2 hk3

/-- Witness for C9 on a concrete accepted payload. -/
theorem sanitize_preserves_node_list_witness :
    jsonParse (repairText witInput) = some witParsed ∧
    parseAndSanitize 2025 witInput = .ok witGraph ∧
    (∃ ns ls, getFieldU witGraph "nodes" = some (.arr ns) ∧
      getFieldU witGraph "links" = some (.arr ls) ∧
      List.Forall₂ (fun orig n2 => normalizeNode 2025 orig = .ok n2) (rawNodesOf witParsed) ns ∧
      (∀ orig n2, normalizeNode 2025 orig = .ok n2 →
        ∀ k, k ≠ "id" → k ≠ "year" → k ≠ "authors" → getFieldU n2 k = getFieldU orig k) ∧
      ls.Sublist (rawLinksOf witParsed)) :=
  ⟨rfl, rfl, sanitize_preserves_node_list 2025 witInput witParsed witGraph rfl rfl⟩

/-- C6: when the repaired text still fails the structured parse, the
sanitizer terminates with the single descriptive error and returns no
Graph at all. -/
theorem sanitize_parse_failure_is_error (cy : Int) (t : String)
    (h : jsonParse (repairText t) = none) :
    parseAndSanitize cy t = .error parseFailMsg := by
  simp [parseAndSanitize, h]

/-- Witness for C6 on a concrete unparsable payload. -/
theorem sanitize_parse_failure_is_error_witness :
    jsonParse (repairText "hello") = none ∧
    parseAndSanitize 2025 "hello" = .error parseFailMsg :=
  ⟨rfl, sanitize_parse_failure_is_error 2025 "hello" rfl⟩

/-- C5 (amended): re-sanitizing a re-serialized sanitizer output returns
the same Graph whenever the textual repair passes and the re-parse
reproduce the serialized value; in particular the value-level
normalization is idempotent.  (The unconditional claim is refuted by
`sanitize_reserialize_counterexample`: the repair regexes can corrupt
string fields of a valid serialization.) -/
theorem sanitize_reserialize_stable (cy : Int) (t : String) (g : JsValue)
    (h1 : parseAndSanitize cy t = .ok g)
    (h2 : jsonParse (repairText (stringify g)) = some g) :
    parseAndSanitize cy (stringify g) = .ok g := by
  obtain ⟨v, hv, hs⟩ := parseAndSanitize_ok_inv cy t g h1
  have hidem := sanitizeData_idem cy v g hs
  simp [parseAndSanitize, h2, hidem]

/-- Witness for the amended C5 on a concrete round-trip-clean payload. -/
theorem sanitize_reserialize_stable_witness :
    parseAndSanitize 2025 cleanInput = .ok cleanGraph ∧
    jsonParse (repairText (stringify cleanGraph)) = some cleanGraph ∧
    parseAndSanitize 2025 (stringify cleanGraph) = .ok cleanGraph :=
  ⟨rfl, rfl, sanitize_reserialize_stable 2025 cleanInput cleanGraph rfl rfl⟩

/-- Counterexample to C5 as stated: a sanitizer output whose node title
contains `",]"` (obtained through a `]` escape) is corrupted by the
trailing-comma repair regex when re-serialized and re-sanitized — the
second Graph differs beyond identity-string coercion. -/
theorem sanitize_reserialize_counterexample :
    parseAndSanitize 2025 idemInput = .ok idemGraph1 ∧
    parseAndSanitize 2025 (stringify idemGraph1) = .ok idemGraph2 ∧
    firstNodeTitle idemGraph1 = some "x,]" ∧
    firstNodeTitle idemGraph2 = some "x]" ∧
    ("x,]" : String) ≠ "x]" :=
  ⟨rfl, rfl, rfl, rfl, by decide⟩

/-- C8: Scenario A — the payload with an unquoted key, a numeric id and a
string year sanitizes to exactly one node with string id `"1"`, integer
year `2020`, defaulted empty authors, and an empty link list. -/
theorem scenarioA_sanitizes (cy : Int) :
    parseAndSanitize cy scenarioAInput = .ok scenarioAOutput := rfl

theorem rebindEnd_ok_node (nodes : List PaperNode) (e e2 : LinkEnd)
    (h : rebindEnd nodes e = some e2) : ∃ n, e2 = .node n := by
  cases e with
  | str s =>
    simp only [rebindEnd, Option.map_eq_some'] at h
    obtain ⟨n, _, hn⟩ := h
    exact ⟨n, hn.symm⟩
  | node n =>
    simp only [rebindEnd, Option.some.injEq] at h
    exact ⟨n, h.symm⟩

theorem rebindLink_node_ends (nodes : List PaperNode) (l l2 : PaperLink)
    (h : rebindLink nodes l = some l2) :
    (∃ n, l2.source = LinkEnd.node n) ∧ (∃ n, l2.target = LinkEnd.node n) := by
  simp only [rebindLink] at h
  split at h
  · rename_i s2 t2 hs ht
    simp only [Option.some.injEq] at h
    obtain ⟨n1, hn1⟩ := rebindEnd_ok_node nodes l.source s2 hs
    obtain ⟨n2, hn2⟩ := rebindEnd_ok_node nodes l.target t2 ht
    refine ⟨⟨n1, ?_⟩, ⟨n2, ?_⟩⟩
    · rw [← h]; exact hn1
    · rw [← h]; exact hn2
  · simp at h

theorem rebindLinks_node_ends (nodes : List PaperNode) :
    ∀ (links links2 : List PaperLink), rebindLinks nodes links = some links2 →
      ∀ l ∈ links2, (∃ n, l.source = LinkEnd.node n) ∧ (∃ n, l.target = LinkEnd.node n) := by
  intro links
  induction links with
  | nil =>
    intro links2 h l hl
    simp only [rebindLinks, Option.some.injEq] at h
    rw [← h] at hl
    simp at hl
  | cons a rest ih =>
    intro links2 h l hl
    simp only [rebindLinks] at h
    split at h
    · simp at h
    · rename_i a2 ha
      split at h
      · simp at h
      · rename_i rest2 hrest
        simp only [Option.some.injEq] at h
        rw [← h] at hl
        rcases List.mem_cons.mp hl with hl | hl
        · exact hl ▸ rebindLink_node_ends nodes a a2 ha
        · exact ih rest2 hrest l hl

/-- The general shape of the C3 slip: once `d3.forceLink` has rebound the
link endpoints to node objects, the strict-equality lookup in
`getNodeColor` never matches, so with a truthy resolved core the core
node is colored `#facc15` and every other node gets the muted neutral
`#e2e8f0`; the relation-type branch (`#94a3b8` for conflict, one shared
`#f472b6` for inheritance and inspiration) is unreachable. -/
theorem getNodeColor_after_rebind (nodes : List PaperNode) (links links2 : List PaperLink)
    (core : String) (d : PaperNode)
    (h : rebindLinks nodes links = some links2) (hc : core ≠ "") :
    getNodeColor (some core) links2 d = if d.id = core then "#facc15" else "#e2e8f0" := by
  have hall := rebindLinks_node_ends nodes links links2 h
  have hfind : links2.find? (fun l =>
      (endEqStr l.source core && endEqStr l.target d.id) ||
      (endEqStr l.target core && endEqStr l.source d.id)) = none := by
    rw [List.find?_eq_none]
    intro l hl
    obtain ⟨⟨n1, hs⟩, ⟨n2, ht⟩⟩ := hall l hl
    simp [hs, ht, endEqStr]
  by_cases hd : d.id = core
  · simp [getNodeColor, hc, hd]
  · simp [getNodeColor, hc, hd, hfind]

/-- Concrete instance of `getNodeColor_after_rebind`. -/
theorem getNodeColor_after_rebind_witness :
    rebindLinks [gvA, gvB] [gvLinkAB] = some [gvLinkABRebound] ∧
    getNodeColor (some "A") [gvLinkABRebound] gvB =
      (if gvB.id = "A" then "#facc15" else "#e2e8f0") :=
  ⟨rfl, getNodeColor_after_rebind [gvA, gvB] [gvLinkAB] [gvLinkABRebound] "A" gvB rfl
    (by decide)⟩

/-- C3: the code contradicts the claimed relation-type neighbor coloring,
which `getNodeColor`'s own (unreachable) branch implements: with core `A`
resolved from the query and an Inheritance link `A → B` already rebound
to node objects by the simulation, the `===`-against-string lookup finds
no link, so the neighbor `B` is filled with the muted neutral `#e2e8f0` —
the color of an unconnected node — instead of the inheritance color
`#f472b6`.  Evaluation of the code at the failing input. -/
theorem getNodeColor_relation_palette_dead :
    resolveCoreNodeId "alpha" [gvA, gvB] = some "A" ∧
    rebindLinks [gvA, gvB] [gvLinkAB] = some [gvLinkABRebound] ∧
    gvLinkABRebound.type = RelationType.inheritance ∧
    getNodeColor (some "A") [gvLinkABRebound] gvB = "#e2e8f0" ∧
    getNodeColor (some "A") [gvLinkABRebound] gvA = "#facc15" ∧
    ("#e2e8f0" : String) ≠ "#f472b6" :=
  ⟨rfl, rfl, rfl, rfl, rfl, by decide⟩

/-- C4 (amended): when a non-empty query matches no node title, the first
node becomes the core exactly when the query contains the `".pdf"` marker;
there is no graph-non-empty fallback. -/
theorem resolveCore_fallback_is_pdf_only (q : String) (nodes : List PaperNode)
    (hq : q ≠ "")
    (hmatch : nodes.find? (fun n => containsSubstr (lowerStr n.title) (lowerStr q)) = none) :
    resolveCoreNodeId q nodes =
      if containsSubstr q ".pdf" then nodes.head?.map PaperNode.id else none := by
  simp [resolveCoreNodeId, hq, hmatch]

/-- Witness for the amended C4: a `.pdf` query with no title match resolves
the first node. -/
theorem resolveCore_fallback_is_pdf_only_witness :
    resolveCoreNodeId "y.pdf" [gvX] =
      (if containsSubstr "y.pdf" ".pdf" then [gvX].head?.map PaperNode.id else none) :=
  resolveCore_fallback_is_pdf_only "y.pdf" [gvX] (by decide) rfl

/-- Counterexample to C4 as stated: the query `"zzz"` matches no title of
the non-empty graph `[gvX]` and contains no file-extension marker; the
claim's graph-non-empty disjunct would resolve the first node (`"1"`), but
the code resolves no core at all. -/
theorem resolveCore_no_nonempty_fallback :
    [gvX] ≠ ([] : List PaperNode) ∧
    List.find? (fun n => containsSubstr (lowerStr n.title) (lowerStr "zzz")) [gvX] = none ∧
    containsSubstr "zzz" ".pdf" = false ∧
    [gvX].head?.map PaperNode.id = some "1" ∧
    resolveCoreNodeId "zzz" [gvX] = none :=
  ⟨by simp, rfl, rfl, rfl, rfl⟩

/-- C7 (amended): node title labels are truncated to 20 characters with an
ellipsis appended (total label length 23) whenever the title exceeds 20
characters, but edge labels are not truncated at all: a non-empty
description of any length is rendered in full (and an empty one falls back
to the relation-type name). -/
theorem label_truncation_policy (title description : String) (t : RelationType)
    (ht : title.length > 20) (hd : description ≠ "") :
    nodeTitleLabel title = (⟨title.data.take 20⟩ : String) ++ "..." ∧
    (nodeTitleLabel title).length = 23 ∧
    linkLabel description t = description := by
  refine ⟨?_, ?_, ?_⟩
  · simp [nodeTitleLabel, ht]
  · have hlen : title.data.length ≥ 20 := by
      have : title.length = title.data.length := rfl
      omega
    simp only [nodeTitleLabel, if_pos ht, String.length_append]
    have h1 : (⟨title.data.take 20⟩ : String).length = (title.data.take 20).length := rfl
    rw [h1, List.length_take]
    have h3 : ("..." : String).length = 3 := rfl
    have h4 : 20 ⊓ title.length = 20 := Nat.min_eq_left (by omega)
    omega
  · simp [linkLabel, hd]

/-- Witness for the amended C7 on a concrete 30-character label. -/
theorem label_truncation_policy_witness :
    longLabel.length > 20 ∧ longLabel ≠ "" ∧
    (nodeTitleLabel longLabel = (⟨longLabel.data.take 20⟩ : String) ++ "..." ∧
     (nodeTitleLabel longLabel).length = 23 ∧
     linkLabel longLabel RelationType.citation = longLabel) :=
  ⟨by decide, by decide,
    label_truncation_policy longLabel longLabel RelationType.citation (by decide) (by decide)⟩

/-- Counterexample to C7 as stated: a 30-character edge description is
rendered untruncated and without an ellipsis, while a node title of the
same length is truncated — edge labels are not bounded by the fixed count. -/
theorem linkLabel_not_truncated :
    longLabel.length = 30 ∧
    linkLabel longLabel RelationType.citation = longLabel ∧
    nodeTitleLabel longLabel ≠ longLabel ∧
    ¬ (linkLabel longLabel RelationType.citation).length ≤ 23 :=
  ⟨rfl, rfl, by decide, by decide⟩

/-- C10: in the tick handler's falsy guard, an endpoint coordinate that is
exactly `0` is treated like a missing coordinate: the link's path is the
empty path for that frame, identical to the path drawn if the coordinate
were absent altogether. -/
theorem linkPath_zero_coordinate_empty (s t : PaperNode) :
    (s.x = some 0 ∨ s.y = some 0 ∨ t.x = some 0 ∨ t.y = some 0 → linkPathD s t = none) ∧
    (s.x = some 0 →
      linkPathD s t =
        linkPathD ⟨s.id, s.title, s.year, s.authors, s.category, none, s.y⟩ t) := by
  constructor
  · intro h
    have hguard : (jsFalsyCoord s.x || jsFalsyCoord s.y || jsFalsyCoord t.x ||
        jsFalsyCoord t.y) = true := by
      rcases h with h | h | h | h <;> simp [h, jsFalsyCoord]
    simp [linkPathD, hguard]
  · intro h
    simp [linkPathD, h, jsFalsyCoord]

/-- Witness for C10: a node positioned at `x = 0` produces the empty path. -/
theorem linkPath_zero_coordinate_empty_witness :
    linkPathD gvPosA gvPosB = none ∧
    linkPathD gvPosA gvPosB =
      linkPathD ⟨gvPosA.id, gvPosA.title, gvPosA.year, gvPosA.authors, gvPosA.category,
        none, gvPosA.y⟩ gvPosB :=
  ⟨(linkPath_zero_coordinate_empty gvPosA gvPosB).1 (Or.inl rfl),
   (linkPath_zero_coordinate_empty gvPosA gvPosB).2 rfl⟩
